import Mathlib

/-!
Shallow embedding of the expense-tracker data-management core
(`src/expense_tracker.py`) and proofs about its record store,
query/aggregation layer and budget monitor.

Conventions of the embedding:
* Python `float` amounts are modelled as exact rationals (`Rat`).
* Expense ids are Python ints, modelled as `Int`.
* A `datetime` value (second precision, as produced by
  `strftime("%Y-%m-%d %H:%M:%S")`) is a six-field `Timestamp`; Python's
  chronological comparison of `datetime` objects is the lexicographic
  order on the fields.
* Each operation loads the collection, transforms it and saves it back;
  we model this as a pure function from the loaded collection (plus the
  "current time" the code obtains from `datetime.now()`) to the persisted
  collection.  An operation that saves only in some branches returns
  `Option`: `none` means the persisted document was left untouched.
* Python truthiness tests on optional parameters (`if category:`,
  `if amount:`, `if month and ...`) are modelled exactly: `None` and the
  empty string / zero are falsy.
-/

namespace ExpenseTracker

/-- A timestamp with second precision, as stored in the `date` field
(`"%Y-%m-%d %H:%M:%S"`). -/
structure Timestamp where
  year : Nat
  month : Nat
  day : Nat
  hour : Nat
  minute : Nat
  second : Nat
deriving DecidableEq, Repr

/-- Chronological comparison of two timestamps: Python compares
`datetime` objects lexicographically on (year, month, day, hour, minute,
second). -/
def Timestamp.le (a b : Timestamp) : Bool :=
  if a.year ≠ b.year then decide (a.year < b.year)
  else if a.month ≠ b.month then decide (a.month < b.month)
  else if a.day ≠ b.day then decide (a.day < b.day)
  else if a.hour ≠ b.hour then decide (a.hour < b.hour)
  else if a.minute ≠ b.minute then decide (a.minute < b.minute)
  else decide (a.second ≤ b.second)

/-- `datetime.strptime(s, "%Y-%m-%d")`: a date-only bound is anchored at
midnight of that day. -/
def midnight (d : Nat × Nat × Nat) : Timestamp :=
  { year := d.1, month := d.2.1, day := d.2.2, hour := 0, minute := 0, second := 0 }

/-- One expense record, the JSON object
`{id, description, amount, date, category}`. -/
structure Expense where
  id : Int
  description : String
  amount : Rat
  date : Timestamp
  category : String
deriving DecidableEq, Repr

/-- State of a persisted JSON document as seen by a loader: the file may
be absent, present but not valid JSON, or parsed successfully. -/
inductive StoredDoc (α : Type) where
  | absent
  | unparsable
  | parsed (value : α)
deriving DecidableEq

/-- `load_expenses`: returns the parsed list, and the empty list when the
file is missing (`FileNotFoundError`) or malformed (`JSONDecodeError`). -/
def load_expenses : StoredDoc (List Expense) → List Expense
  | .parsed v => v
  | .absent => []
  | .unparsable => []

/-- `load_budget`: returns `parsed.get("monthly_budget", 0)`, i.e. the
stored value, `0` when the key is missing, and `0` when the file is
missing or malformed. -/
def load_budget : StoredDoc (Option Rat) → Rat
  | .parsed (some b) => b
  | .parsed none => 0
  | .absent => 0
  | .unparsable => 0

/-- Python's `max(xs, default=0)` on a list of ints: the fold of `max`
over the elements, `0` only when the list is empty. -/
def maxIds : List Int → Int
  | [] => 0
  | x :: xs => xs.foldl max x

/-- `max((expense['id'] for expense in expenses), default=0)` from
`add_expense`: the maximum id in the collection, `0` when it is empty. -/
def maxId (expenses : List Expense) : Int :=
  maxIds (expenses.map (·.id))

/-- `category if category else "Uncategorized"`: the category field of a
new record, with Python truthiness (both `None` and `""` fall back). -/
def categoryOrDefault (category : Option String) : String :=
  match category with
  | some c => if c ≠ "" then c else "Uncategorized"
  | none => "Uncategorized"

/-- `add_expense(description, amount, category)`: computes
`new_id = max(ids, default 0) + 1`, appends the new record stamped with
the current time, saves, and reports the new id. -/
def add_expense (expenses : List Expense) (now : Timestamp) (description : String)
    (amount : Rat) (category : Option String) : Int × List Expense :=
  let new_id := maxId expenses + 1
  let new_expense : Expense :=
    { id := new_id, description := description, amount := amount,
      date := now, category := categoryOrDefault category }
  (new_id, expenses ++ [new_expense])

/-- `sum(expense['amount'] for expense in expenses)`, the running total
used by `check_budget` and `show_summary`. -/
def total_amount (expenses : List Expense) : Rat :=
  expenses.foldl (fun acc e => acc + e.amount) 0

/-- `check_budget()`: recomputes the all-time total of the saved
collection and compares it strictly against the stored budget. -/
def check_budget (expenses : List Expense) (monthly_budget : Rat) : Bool :=
  decide (total_amount expenses > monthly_budget)

/-- The whole `add_expense` call as run by the CLI: after saving, the
code calls `check_budget()`, which reloads the just-saved collection and
the (unchanged) budget.  Result: the new id, the persisted collection,
and whether the budget warning was printed. -/
def add_expense_run (expenses : List Expense) (monthly_budget : Rat) (now : Timestamp)
    (description : String) (amount : Rat) (category : Option String) :
    Int × List Expense × Bool :=
  let r := add_expense expenses now description amount category
  (r.1, r.2, check_budget r.2 monthly_budget)

/-- `list_expenses(category, start_date, end_date)`: the sequence that is
displayed.  Each filter is applied only when its argument is truthy; the
date bounds are parsed date-only and so compare at midnight. -/
def list_expenses (expenses : List Expense) (category : Option String)
    (start_date end_date : Option (Nat × Nat × Nat)) : List Expense :=
  let l1 := match category with
    | some c => if c ≠ "" then expenses.filter (fun e => e.category == c) else expenses
    | none => expenses
  let l2 := match start_date with
    | some d => l1.filter (fun e => Timestamp.le (midnight d) e.date)
    | none => l1
  match end_date with
  | some d => l2.filter (fun e => Timestamp.le e.date (midnight d))
  | none => l2

/-- `delete_expense(expense_id)`: keeps the records whose id differs, and
saves only when the length changed; `none` models the not-found branch in
which nothing is persisted. -/
def delete_expense (expense_id : Int) (expenses : List Expense) :
    Option (List Expense) :=
  let updated := expenses.filter (fun e => e.id != expense_id)
  if updated.length = expenses.length then none else some updated

/-- The in-place mutation `update_expense` applies to the matched record:
each optional field overwrites only when truthy (`if description:` etc.),
and `date` is unconditionally refreshed to now. -/
def updated_record (e : Expense) (now : Timestamp) (description : Option String)
    (amount : Option Rat) (category : Option String) : Expense :=
  { e with
    description := match description with
      | some d => if d ≠ "" then d else e.description
      | none => e.description
    amount := match amount with
      | some a => if a ≠ 0 then a else e.amount
      | none => e.amount
    category := match category with
      | some c => if c ≠ "" then c else e.category
      | none => e.category
    date := now }

/-- `update_expense(expense_id, description, amount, category)`: walks
the collection, mutates the first record with the given id, saves and
returns; `none` models the not-found fall-through that saves nothing. -/
def update_expense (expense_id : Int) (now : Timestamp) (description : Option String)
    (amount : Option Rat) (category : Option String) :
    List Expense → Option (List Expense)
  | [] => none
  | e :: rest =>
    if e.id = expense_id then
      some (updated_record e now description amount category :: rest)
    else
      (update_expense expense_id now description amount category rest).map (e :: ·)

/-- The loop body of `show_summary`: Python's
`if month and date.month == month and date.year == current_year: add`
`elif not month: add`. -/
def summary_step (month : Option Int) (current_year : Nat) (total : Rat)
    (e : Expense) : Rat :=
  match month with
  | some m =>
    if m ≠ 0 then
      if (e.date.month : Int) = m ∧ e.date.year = current_year then total + e.amount
      else total
    else total + e.amount
  | none => total + e.amount

/-- `show_summary(month)`: the printed total.  `current_year` stands for
`datetime.now().year`. -/
def show_summary (expenses : List Expense) (current_year : Nat)
    (month : Option Int) : Rat :=
  expenses.foldl (summary_step month current_year) 0

/-- The arguments the `list` subcommand parses: `--category`,
`--start-date`, `--end-date` (dates already in parsed form). -/
structure ListArgs where
  category : Option String
  start_date : Option (Nat × Nat × Nat)
  end_date : Option (Nat × Nat × Nat)
deriving DecidableEq

/-- The `list` branch of `main`: the code calls
`list_expenses(args.category)`, so the two date parameters take their
default value `None`. -/
def main_list_branch (expenses : List Expense) (args : ListArgs) : List Expense :=
  list_expenses expenses args.category none none

/-- One CLI mutation on the expense store, for reasoning about operation
sequences: an `add` (with the wall-clock time the call observes) or a
`delete`. -/
inductive Op where
  | add (now : Timestamp) (description : String) (amount : Rat) (category : Option String)
  | del (expense_id : Int)

/-- The persisted collection after one operation: `add` always saves the
extended list; a not-found `delete` leaves the document unchanged. -/
def exec (s : List Expense) : Op → List Expense
  | .add now d a c => (add_expense s now d a c).2
  | .del i => (delete_expense i s).getD s

/-- The persisted collection after a sequence of operations starting from
an empty store. -/
def run (ops : List Op) : List Expense :=
  ops.foldl exec []

/-- One `add` call in an add-only sequence (the timestamp is the time the
call observes). -/
structure AddCall where
  now : Timestamp
  description : String
  amount : Rat
  category : Option String

/-- Runs a sequence of `add_expense` calls, collecting the ids returned
to the caller alongside the final persisted collection. -/
def run_adds : List Expense → List AddCall → List Int × List Expense
  | s, [] => ([], s)
  | s, call :: rest =>
    let r := add_expense s call.now call.description call.amount call.category
    let t := run_adds r.2 rest
    (r.1 :: t.1, t.2)

/-! ### Supporting lemmas -/

theorem foldl_max_le_init (xs : List Int) (x : Int) : x ≤ xs.foldl max x := by
  induction xs generalizing x with
  | nil => exact le_refl x
  | cons y ys ih =>
    calc x ≤ max x y := le_max_left x y
    _ ≤ ys.foldl max (max x y) := ih (max x y)

theorem mem_le_foldl_max (xs : List Int) (x y : Int) (hy : y ∈ xs) :
    y ≤ xs.foldl max x := by
  induction xs generalizing x with
  | nil => cases hy
  | cons z zs ih =>
    rcases List.mem_cons.mp hy with h | h
    · subst h
      calc y ≤ max x y := le_max_right x y
      _ ≤ zs.foldl max (max x y) := foldl_max_le_init zs (max x y)
    · exact ih (max x z) h

/-- Every id in the collection is bounded by `maxId`. -/
theorem id_le_maxId (s : List Expense) (e : Expense) (he : e ∈ s) :
    e.id ≤ maxId s := by
  cases s with
  | nil => cases he
  | cons x xs =>
    have hx : maxId (x :: xs) = (xs.map (·.id)).foldl max x.id := by
      simp [maxId, maxIds]
    rw [hx]
    rcases List.mem_cons.mp he with h | h
    · subst h
      exact foldl_max_le_init (xs.map (·.id)) e.id
    · exact mem_le_foldl_max (xs.map (·.id)) x.id e.id (List.mem_map_of_mem (·.id) h)

/-- Appending the freshly numbered record raises `maxId` by exactly one. -/
theorem maxId_append_fresh (s : List Expense) (e : Expense)
    (he : e.id = maxId s + 1) : maxId (s ++ [e]) = maxId s + 1 := by
  cases s with
  | nil =>
    simpa [maxId, maxIds] using he
  | cons x xs =>
    have hx : maxId (x :: xs) = (xs.map (·.id)).foldl max x.id := by
      simp [maxId, maxIds]
    have hx2 : maxId ((x :: xs) ++ [e])
        = ((xs.map (·.id)) ++ [e.id]).foldl max x.id := by
      simp [maxId, maxIds]
    rw [hx2, List.foldl_append, List.foldl_cons, List.foldl_nil, ← hx, he]
    have hle : maxId (x :: xs) ≤ maxId (x :: xs) + 1 := by omega
    exact max_eq_right hle

/-- The id returned by `add_expense` is strictly larger than every id
already present. -/
theorem add_expense_id_fresh (s : List Expense) (now : Timestamp) (d : String)
    (a : Rat) (c : Option String) (e : Expense) (he : e ∈ s) :
    e.id < (add_expense s now d a c).1 := by
  have := id_le_maxId s e he
  simp only [add_expense]
  omega

/-- One executed operation preserves distinctness of ids. -/
theorem exec_pairwise (s : List Expense) (op : Op)
    (h : s.Pairwise (fun x y => x.id ≠ y.id)) :
    (exec s op).Pairwise (fun x y => x.id ≠ y.id) := by
  cases op with
  | add now d a c =>
    simp only [exec, add_expense]
    rw [List.pairwise_append]
    refine ⟨h, List.pairwise_singleton _ _, ?_⟩
    intro x hx b hb
    have hble : x.id ≤ maxId s := id_le_maxId s x hx
    have : b = { id := maxId s + 1, description := d, amount := a,
                 date := now, category := categoryOrDefault c } := by
      simpa using hb
    subst this
    simp only
    omega
  | del i =>
    simp only [exec, delete_expense]
    by_cases hlen :
        (s.filter (fun e => e.id != i)).length = s.length
    · simpa [hlen] using h
    · simp only [hlen, if_neg, Option.getD_some, ite_false]
      exact List.Pairwise.sublist (List.filter_sublist s) h

theorem run_from_pairwise (ops : List Op) (s : List Expense)
    (h : s.Pairwise (fun x y => x.id ≠ y.id)) :
    (ops.foldl exec s).Pairwise (fun x y => x.id ≠ y.id) := by
  induction ops generalizing s with
  | nil => exact h
  | cons op rest ih =>
    exact ih (exec s op) (exec_pairwise s op h)

/-! ### Claim theorems -/

/-- Timestamps used in concrete scenarios. -/
def ts (d : Nat) : Timestamp :=
  { year := 2024, month := 1, day := d, hour := 12, minute := 0, second := 0 }

/-- Claim C1, counterexample: starting from an empty store, two adds
assign ids 1 and 2; after deleting id 2, the next add assigns id 2 again
(because the new id is computed as `max(existing ids) + 1`), so an id
that was assigned and later deleted is reused. -/
theorem C1_counterexample :
    (add_expense (run [Op.add (ts 1) "a" 1 none]) (ts 2) "b" 1 none).1 = 2 ∧
    delete_expense 2 (run [Op.add (ts 1) "a" 1 none, Op.add (ts 2) "b" 1 none])
      = some (run [Op.add (ts 1) "a" 1 none, Op.add (ts 2) "b" 1 none, Op.del 2]) ∧
    (add_expense (run [Op.add (ts 1) "a" 1 none, Op.add (ts 2) "b" 1 none, Op.del 2])
        (ts 3) "c" 1 none).1 = 2 := by
  refine ⟨rfl, rfl, rfl⟩

/-- Claim C1, amended: after every sequence of add/delete operations from
an empty store the ids in the collection are pairwise distinct, and each
`add_expense` assigns `max(existing ids) + 1` (hence `1` on an empty
store); but a deleted id can be assigned again (see the counterexample),
so "ids are never reused after deletion" does not hold. -/
theorem C1_ids_unique (ops : List Op) (s : List Expense) (now : Timestamp)
    (d : String) (a : Rat) (c : Option String) :
    (run ops).Pairwise (fun x y => x.id ≠ y.id) ∧
    (add_expense s now d a c).1 = maxId s + 1 ∧
    (add_expense [] now d a c).1 = 1 := by
  refine ⟨run_from_pairwise ops [] (List.Pairwise.nil), rfl, rfl⟩

/-- The ids handed out by a sequence of `add_expense` calls from a store
`s` are `maxId s + 1, maxId s + 2, ...` in call order. -/
theorem run_adds_ids (calls : List AddCall) (s : List Expense) :
    (run_adds s calls).1
      = (List.range calls.length).map (fun n => maxId s + 1 + Int.ofNat n) := by
  induction calls generalizing s with
  | nil => simp [run_adds]
  | cons call rest ih =>
    have hmax :
        maxId (add_expense s call.now call.description call.amount call.category).2
          = maxId s + 1 :=
      maxId_append_fresh s _ rfl
    simp only [run_adds]
    rw [ih, hmax]
    have h0 :
        (add_expense s call.now call.description call.amount call.category).1
          = maxId s + 1 := rfl
    rw [h0, List.length_cons, List.range_succ_eq_map, List.map_cons, List.map_map]
    congr 1
    · simp
    · refine List.map_congr_left ?_
      intro n _
      simp only [Function.comp_apply]
      have hsucc : Int.ofNat n.succ = Int.ofNat n + 1 := rfl
      rw [hsucc]
      ring

/-- Claim C2: an add-only sequence from the empty store hands out the ids
`1, 2, ..., n` in call order (unique and strictly increasing, starting at
1); each call appends a record with id `max(existing ids, default 0) + 1`
whose category defaults to `"Uncategorized"` when none is given, and the
persisted collection is the input extended by that record. -/
theorem C2_add_only_sequences (calls : List AddCall) (s : List Expense)
    (now : Timestamp) (d : String) (a : Rat) (c : Option String) :
    (run_adds [] calls).1 = (List.range calls.length).map (fun n => Int.ofNat n + 1) ∧
    ((run_adds [] calls).1).Pairwise (· < ·) ∧
    List.Chain' (· < ·) (run_adds [] calls).1 ∧
    ((run_adds [] calls).1).Pairwise (· ≠ ·) ∧
    add_expense s now d a none
      = (maxId s + 1,
         s ++ [{ id := maxId s + 1, description := d, amount := a,
                 date := now, category := "Uncategorized" }]) ∧
    (add_expense s now d a c).2
      = s ++ [{ id := maxId s + 1, description := d, amount := a,
                date := now, category := categoryOrDefault c }] := by
  have h1 : (run_adds [] calls).1
      = (List.range calls.length).map (fun n => Int.ofNat n + 1) := by
    rw [run_adds_ids calls []]
    refine List.map_congr_left ?_
    intro n _
    show maxId [] + 1 + Int.ofNat n = Int.ofNat n + 1
    simp [maxId, maxIds]
    ring
  have h2 : ((run_adds [] calls).1).Pairwise (· < ·) := by
    rw [h1]
    rw [List.pairwise_map]
    refine (List.pairwise_lt_range calls.length).imp ?_
    intro m n hmn
    exact add_lt_add_right (Int.ofNat_lt.mpr hmn) 1
  refine ⟨h1, h2, List.chain'_iff_pairwise.mpr h2, h2.imp ne_of_lt, rfl, rfl⟩

theorem summary_step_shift (month : Option Int) (y : Nat) (t : Rat) (e : Expense) :
    summary_step month y t e = t + summary_step month y 0 e := by
  cases month with
  | none => simp [summary_step]
  | some m =>
    by_cases hm : m ≠ 0 <;>
      by_cases hc : ((e.date.month : Int) = m ∧ e.date.year = y) <;>
        simp [summary_step, hm, hc]

theorem foldl_summary_shift (month : Option Int) (y : Nat) (l : List Expense)
    (t : Rat) :
    l.foldl (summary_step month y) t = t + l.foldl (summary_step month y) 0 := by
  induction l generalizing t with
  | nil => simp
  | cons e rest ih =>
    rw [List.foldl_cons, List.foldl_cons, ih (summary_step month y t e),
      ih (summary_step month y 0 e), summary_step_shift month y t e]
    ring

theorem foldl_amount_shift (l : List Expense) (t : Rat) :
    l.foldl (fun acc e => acc + e.amount) t
      = t + l.foldl (fun acc e => acc + e.amount) 0 := by
  induction l generalizing t with
  | nil => simp
  | cons e rest ih =>
    rw [List.foldl_cons, List.foldl_cons, ih (t + e.amount), ih (0 + e.amount)]
    ring

theorem total_amount_cons (e : Expense) (l : List Expense) :
    total_amount (e :: l) = e.amount + total_amount l := by
  unfold total_amount
  rw [List.foldl_cons, foldl_amount_shift l (0 + e.amount)]
  ring

/-- With no month filter, `show_summary` adds up every amount. -/
theorem show_summary_none (l : List Expense) (y : Nat) :
    show_summary l y none = total_amount l := by
  have hfun : summary_step none y = fun acc e => acc + e.amount := by
    funext t e
    rfl
  unfold show_summary total_amount
  rw [hfun]

/-- With a truthy month filter, `show_summary` adds up exactly the
records of that month in the current year. -/
theorem show_summary_month (l : List Expense) (y : Nat) (m : Int) (hm : m ≠ 0) :
    show_summary l y (some m)
      = total_amount (l.filter fun e =>
          decide ((e.date.month : Int) = m ∧ e.date.year = y)) := by
  induction l with
  | nil => rfl
  | cons e rest ih =>
    have hstep : show_summary (e :: rest) y (some m)
        = summary_step (some m) y 0 e + show_summary rest y (some m) := by
      unfold show_summary
      rw [List.foldl_cons, foldl_summary_shift]
    rw [hstep, ih]
    by_cases hc : ((e.date.month : Int) = m ∧ e.date.year = y)
    · rw [List.filter_cons_of_pos (by simpa using hc), total_amount_cons]
      simp [summary_step, hm, hc]
    · rw [List.filter_cons_of_neg (by simpa using hc)]
      simp [summary_step, hm, hc]

/-- Claim C3: `show_summary` with no month returns the total over all
records (`0` on an empty store); with a month number it returns the total
over exactly the records whose date has that month and whose year is the
current calendar year — the record's own year is compared against the
current year, not left free. -/
theorem C3_show_summary (l : List Expense) (y : Nat) (m : Int)
    (h1 : 1 ≤ m) (h2 : m ≤ 12) :
    show_summary l y none = total_amount l ∧
    show_summary [] y none = 0 ∧
    show_summary l y (some m)
      = total_amount (l.filter fun e =>
          decide ((e.date.month : Int) = m ∧ e.date.year = y)) :=
  ⟨show_summary_none l y, rfl, show_summary_month l y m (by omega)⟩

/-- Concrete records used by witnesses. -/
def expA : Expense :=
  { id := 1, description := "Coffee", amount := 10, date := ts 1, category := "Food" }

/-- Concrete records used by witnesses. -/
def expB : Expense :=
  { id := 2, description := "Bus", amount := 25, date := ts 2,
    category := "Uncategorized" }

/-- Witness for C3 at the two-record store and month 1 of 2024. -/
theorem C3_show_summary_witness :
    (1 ≤ (1 : Int)) ∧ ((1 : Int) ≤ 12) ∧
    (show_summary [expA, expB] 2024 none = total_amount [expA, expB] ∧
     show_summary [] 2024 none = 0 ∧
     show_summary [expA, expB] 2024 (some 1)
       = total_amount ([expA, expB].filter fun e =>
           decide ((e.date.month : Int) = 1 ∧ e.date.year = 2024))) :=
  ⟨by norm_num, by norm_num,
    C3_show_summary [expA, expB] 2024 1 (by norm_num) (by norm_num)⟩

/-- When no record has the requested id, `update_expense` falls through
the loop: nothing is saved. -/
theorem update_expense_not_found (i : Int) (now : Timestamp) (d : Option String)
    (a : Option Rat) (c : Option String) (l : List Expense)
    (h : ∀ x ∈ l, x.id ≠ i) :
    update_expense i now d a c l = none := by
  induction l with
  | nil => rfl
  | cons e rest ih =>
    have he : ¬ e.id = i := h e (List.mem_cons_self e rest)
    simp only [update_expense, if_neg he]
    rw [ih (fun x hx => h x (List.mem_cons_of_mem e hx))]
    rfl

/-- `update_expense` rewrites exactly the first record with the requested
id and leaves every other position untouched. -/
theorem update_expense_found (i : Int) (now : Timestamp) (d : Option String)
    (a : Option Rat) (c : Option String) (pre post : List Expense) (e : Expense)
    (hpre : ∀ x ∈ pre, x.id ≠ i) (he : e.id = i) :
    update_expense i now d a c (pre ++ e :: post)
      = some (pre ++ updated_record e now d a c :: post) := by
  induction pre with
  | nil =>
    simp only [List.nil_append, update_expense, if_pos he]
  | cons x xs ih =>
    have hx : ¬ x.id = i := hpre x (List.mem_cons_self x xs)
    simp only [List.cons_append, update_expense, if_neg hx, List.append_eq]
    rw [ih (fun z hz => hpre z (List.mem_cons_of_mem x hz))]
    rfl

/-- Claim C4: on a matched id, `update_expense` overwrites a provided
field only when its value is truthy (an empty description or a zero
amount is ignored), always stamps `date` with the current time, rewrites
only the matched record, and persists; when nothing matches it persists
nothing.  With no optional fields the matched record changes only in its
`date` field. -/
theorem C4_update_expense (i : Int) (now : Timestamp) (d : Option String)
    (a : Option Rat) (c : Option String) (l pre post : List Expense) (e : Expense)
    (d0 c0 : String) (a0 : Rat)
    (hl : ∀ x ∈ l, x.id ≠ i) (hpre : ∀ x ∈ pre, x.id ≠ i) (he : e.id = i)
    (hd0 : d0 ≠ "") (ha0 : a0 ≠ 0) (hc0 : c0 ≠ "") :
    update_expense i now d a c l = none ∧
    update_expense i now d a c (pre ++ e :: post)
      = some (pre ++ updated_record e now d a c :: post) ∧
    (updated_record e now d a c).date = now ∧
    updated_record e now none none none = { e with date := now } ∧
    updated_record e now (some "") (some 0) (some "") = { e with date := now } ∧
    (updated_record e now (some d0) a c).description = d0 ∧
    (updated_record e now d (some a0) c).amount = a0 ∧
    (updated_record e now d a (some c0)).category = c0 ∧
    (updated_record e now none a c).description = e.description ∧
    (updated_record e now d none c).amount = e.amount ∧
    (updated_record e now d a none).category = e.category := by
  refine ⟨update_expense_not_found i now d a c l hl,
    update_expense_found i now d a c pre post e hpre he,
    rfl, rfl, ?_, ?_, ?_, ?_, rfl, rfl, rfl⟩
  · simp [updated_record]
  · simp [updated_record, hd0]
  · simp [updated_record, ha0]
  · simp [updated_record, hc0]

/-- Witness for C4: updating id 1 in `[expB]` finds nothing and saves
nothing; in `[expB, expA]` it rewrites only `expA`. -/
theorem C4_update_expense_witness :
    ((∀ x ∈ [expB], x.id ≠ 1) ∧ expA.id = 1 ∧ ("n" : String) ≠ "" ∧
      (7 : Rat) ≠ 0 ∧ ("C" : String) ≠ "") ∧
    (update_expense 1 (ts 3) none none none [expB] = none ∧
     update_expense 1 (ts 3) none none none ([expB] ++ expA :: [])
       = some ([expB] ++ updated_record expA (ts 3) none none none :: []) ∧
     (updated_record expA (ts 3) none none none).date = ts 3 ∧
     updated_record expA (ts 3) none none none = { expA with date := ts 3 } ∧
     updated_record expA (ts 3) (some "") (some 0) (some "")
       = { expA with date := ts 3 } ∧
     (updated_record expA (ts 3) (some "n") none none).description = "n" ∧
     (updated_record expA (ts 3) none (some 7) none).amount = 7 ∧
     (updated_record expA (ts 3) none none (some "C")).category = "C" ∧
     (updated_record expA (ts 3) none none none).description = expA.description ∧
     (updated_record expA (ts 3) none none none).amount = expA.amount ∧
     (updated_record expA (ts 3) none none none).category = expA.category) :=
  ⟨⟨by decide, by decide, by decide, by norm_num, by decide⟩,
    C4_update_expense 1 (ts 3) none none none [expB] [expB] [] expA "n" "C" 7
      (by decide) (by decide) (by decide) (by decide) (by norm_num) (by decide)⟩

/-- An expense dated in 2023, used to exhibit the dropped date filters. -/
def exp2023 : Expense :=
  { id := 3, description := "Old", amount := 4,
    date := { year := 2023, month := 5, day := 1, hour := 10, minute := 0, second := 0 },
    category := "Food" }

/-- Claim C5 (code bug): the `list` subcommand parses `--start-date` and
`--end-date`, but `main` invokes `list_expenses(args.category)` only, so
both date filters default to `None`: with `--start-date 2024-01-01` a
2023 expense is still displayed, although `list_expenses` given all three
parsed flags would exclude it. -/
theorem C5_cli_drops_date_filters :
    main_list_branch [exp2023]
        { category := none, start_date := some (2024, 1, 1), end_date := none }
      = [exp2023] ∧
    list_expenses [exp2023] none (some (2024, 1, 1)) none = [] :=
  ⟨rfl, rfl⟩

/-- Claim C6: `list_expenses` applies its supplied filters conjunctively
(category by exact equality, the date bounds inclusively against the
bound anchored at midnight), returning exactly the records that pass all
of them, in their original relative order (a sublist of the store). -/
theorem C6_list_expenses (expenses : List Expense) (category : Option String)
    (sd ed : Option (Nat × Nat × Nat)) (hc : category ≠ some "") :
    list_expenses expenses category sd ed
      = expenses.filter (fun e =>
          (match category with
           | some cs => e.category == cs
           | none => true) &&
          (match sd with
           | some dd => Timestamp.le (midnight dd) e.date
           | none => true) &&
          (match ed with
           | some dd => Timestamp.le e.date (midnight dd)
           | none => true)) ∧
    (list_expenses expenses category sd ed).Sublist expenses ∧
    (∀ e ∈ list_expenses expenses category sd ed,
      (∀ cs, category = some cs → e.category = cs) ∧
      (∀ dd, sd = some dd → Timestamp.le (midnight dd) e.date = true) ∧
      (∀ dd, ed = some dd → Timestamp.le e.date (midnight dd) = true)) := by
  have h1 : list_expenses expenses category sd ed
      = expenses.filter (fun e =>
          (match category with
           | some cs => e.category == cs
           | none => true) &&
          (match sd with
           | some dd => Timestamp.le (midnight dd) e.date
           | none => true) &&
          (match ed with
           | some dd => Timestamp.le e.date (midnight dd)
           | none => true)) := by
    cases category with
    | none =>
      cases sd with
      | none =>
        cases ed with
        | none => simp [list_expenses]
        | some dd => simp [list_expenses]
      | some ds =>
        cases ed with
        | none => simp [list_expenses]
        | some dd =>
          simp [list_expenses, List.filter_filter, Bool.and_comm]
    | some cs =>
      have hcs : cs ≠ "" := fun h => hc (by rw [h])
      cases sd with
      | none =>
        cases ed with
        | none => simp [list_expenses, hcs]
        | some dd => simp [list_expenses, hcs, List.filter_filter, Bool.and_comm]
      | some ds =>
        cases ed with
        | none => simp [list_expenses, hcs, List.filter_filter, Bool.and_comm]
        | some dd =>
          simp [list_expenses, hcs, List.filter_filter, Bool.and_comm,
            Bool.and_assoc, Bool.and_left_comm]
  refine ⟨h1, ?_, ?_⟩
  · rw [h1]
    exact List.filter_sublist expenses
  · intro e he
    rw [h1] at he
    have hp := (List.mem_filter.mp he).2
    simp only [Bool.and_eq_true] at hp
    refine ⟨?_, ?_, ?_⟩
    · intro cs hcs
      subst hcs
      simpa using hp.1.1
    · intro dd hdd
      subst hdd
      simpa using hp.1.2
    · intro dd hdd
      subst hdd
      simpa using hp.2

/-- Witness for C6: a category plus a full date range on a three-record
store. -/
theorem C6_list_expenses_witness :
    ((some "Food" : Option String) ≠ some "") ∧
    list_expenses [expA, expB, exp2023] (some "Food")
        (some (2024, 1, 1)) (some (2024, 12, 31))
      = [expA, expB, exp2023].filter (fun e =>
          (match (some "Food" : Option String) with
           | some cs => e.category == cs
           | none => true) &&
          (match (some (2024, 1, 1) : Option (Nat × Nat × Nat)) with
           | some dd => Timestamp.le (midnight dd) e.date
           | none => true) &&
          (match (some (2024, 12, 31) : Option (Nat × Nat × Nat)) with
           | some dd => Timestamp.le e.date (midnight dd)
           | none => true)) ∧
    (list_expenses [expA, expB, exp2023] (some "Food")
        (some (2024, 1, 1)) (some (2024, 12, 31))).Sublist [expA, expB, exp2023] :=
  ⟨by decide,
    (C6_list_expenses [expA, expB, exp2023] (some "Food")
      (some (2024, 1, 1)) (some (2024, 12, 31)) (by decide)).1,
    (C6_list_expenses [expA, expB, exp2023] (some "Food")
      (some (2024, 1, 1)) (some (2024, 12, 31)) (by decide)).2.1⟩

/-- Splitting the length of a collection by whether the id matches. -/
theorem filter_length_split (l : List Expense) (i : Int) :
    (l.filter (fun e => e.id != i)).length
      + (l.filter (fun e => e.id == i)).length = l.length := by
  induction l with
  | nil => rfl
  | cons e rest ih =>
    by_cases h : e.id = i
    · simp only [List.filter_cons, h]
      simp
      omega
    · simp only [List.filter_cons]
      simp [h]
      omega

/-- A not-found delete saves nothing. -/
theorem delete_expense_not_found (l : List Expense) (i : Int)
    (h : ∀ e ∈ l, e.id ≠ i) : delete_expense i l = none := by
  have hself : l.filter (fun e => e.id != i) = l :=
    List.filter_eq_self.mpr (fun a ha => by simpa using h a ha)
  simp [delete_expense, hself]

/-- Claim C7: when exactly one record carries the id, `delete_expense`
persists a collection smaller by exactly one; when no record carries it
(in particular immediately after a successful delete of that id) it
signals not-found and persists nothing. -/
theorem C7_delete_expense (l : List Expense) (i : Int) :
    (((l.filter (fun e => e.id == i)).length = 1) →
      ∃ l', delete_expense i l = some l' ∧ l'.length + 1 = l.length) ∧
    ((∀ e ∈ l, e.id ≠ i) → delete_expense i l = none) ∧
    (∀ l', delete_expense i l = some l' → delete_expense i l' = none) := by
  refine ⟨?_, delete_expense_not_found l i, ?_⟩
  · intro hcount
    have hsplit := filter_length_split l i
    have hne : (l.filter (fun e => e.id != i)).length ≠ l.length := by omega
    refine ⟨l.filter (fun e => e.id != i), ?_, by omega⟩
    simp [delete_expense, hne]
  · intro l' hl'
    have hval : l' = l.filter (fun e => e.id != i) := by
      by_cases hne : (l.filter (fun e => e.id != i)).length = l.length
      · simp [delete_expense, hne] at hl'
      · simp [delete_expense, hne] at hl'
        exact hl'.symm
    subst hval
    refine delete_expense_not_found _ i ?_
    intro e he
    have := (List.mem_filter.mp he).2
    simpa using this

/-- Witness for C7: deleting id 1 from a two-record store removes one
record; deleting an absent id 5 is a no-op; deleting id 1 again after it
succeeded signals not-found. -/
theorem C7_delete_expense_witness :
    (([expA, expB].filter (fun e => e.id == 1)).length = 1 ∧
      ∃ l', delete_expense 1 [expA, expB] = some l'
        ∧ l'.length + 1 = [expA, expB].length) ∧
    ((∀ e ∈ [expA, expB], e.id ≠ 5) ∧ delete_expense 5 [expA, expB] = none) ∧
    (delete_expense 1 [expA, expB] = some [expB] ∧
      delete_expense 1 [expB] = none) :=
  ⟨⟨by decide, (C7_delete_expense [expA, expB] 1).1 (by decide)⟩,
   ⟨by decide, (C7_delete_expense [expA, expB] 5).2.1 (by decide)⟩,
   ⟨rfl, (C7_delete_expense [expA, expB] 1).2.2 [expB] rfl⟩⟩

/-- Claim C8: `check_budget` flags exceeded exactly when the recomputed
all-time total (the unfiltered sum of amounts) is strictly greater than
the stored budget, and the full `add_expense` call runs this check on the
collection it has just persisted. -/
theorem C8_check_budget (l : List Expense) (b : Rat) (now : Timestamp)
    (d : String) (a : Rat) (c : Option String) :
    (check_budget l b = true ↔ total_amount l > b) ∧
    total_amount l = (l.map (·.amount)).sum ∧
    add_expense_run l b now d a c
      = ((add_expense l now d a c).1, (add_expense l now d a c).2,
         check_budget (add_expense l now d a c).2 b) := by
  have hsum : total_amount l = (l.map (·.amount)).sum := by
    induction l with
    | nil => rfl
    | cons e rest ih => rw [total_amount_cons, List.map_cons, List.sum_cons, ih]
  exact ⟨decide_eq_true_iff, hsum, rfl⟩

/-- Claim C9: both loaders fail soft — an absent or unparsable backing
document yields the empty collection and the default budget `0`. -/
theorem C9_load_fail_soft :
    load_expenses StoredDoc.absent = [] ∧
    load_expenses StoredDoc.unparsable = [] ∧
    load_budget StoredDoc.absent = 0 ∧
    load_budget StoredDoc.unparsable = 0 :=
  ⟨rfl, rfl, rfl, rfl⟩

/-- Claim C10: `delete_expense` keeps exactly the records whose id
differs, so one call removes every record carrying the id — with
duplicated ids in a hand-edited document, the collection can shrink by
more than one. -/
theorem C10_delete_all_matches (l : List Expense) (i : Int)
    (h : ∃ e ∈ l, e.id = i) :
    delete_expense i l = some (l.filter (fun e => e.id != i)) := by
  obtain ⟨e, he, hei⟩ := h
  have hne : (l.filter (fun e => e.id != i)).length ≠ l.length := by
    intro hlen
    have hall := List.filter_length_eq_length.mp hlen e he
    simp [hei] at hall
  simp [delete_expense, hne]

/-- A record sharing its id with `dupB`. -/
def dupA : Expense :=
  { id := 7, description := "dup one", amount := 1, date := ts 1, category := "X" }

/-- A record sharing its id with `dupA`. -/
def dupB : Expense :=
  { id := 7, description := "dup two", amount := 2, date := ts 2, category := "Y" }

/-- Witness for C10: with two records of id 7 in the store, one delete
removes both, shrinking the collection by two. -/
theorem C10_delete_all_matches_witness :
    (∃ e ∈ [dupA, dupB, expB], e.id = 7) ∧
    delete_expense 7 [dupA, dupB, expB]
      = some ([dupA, dupB, expB].filter (fun e => e.id != 7)) ∧
    ([dupA, dupB, expB].filter (fun e => e.id != 7)).length + 2
      = [dupA, dupB, expB].length :=
  ⟨by decide, C10_delete_all_matches [dupA, dupB, expB] 7 (by decide), by decide⟩

end ExpenseTracker
